import Mathlib

/-!
Shallow embedding of the graceful-restart controller in `graceful.go`
(package `fuse`).  Go strings are modelled as lists of byte values
(`GoStr`), so `","` is the byte 44, `'0'`-`'9'` are 48-57, `'-'` is 45 and
`'+'` is 43.  External collaborators (the OS process table, the filesystem,
the session constructor) are modelled as oracle inputs, exactly at the
granularity the Go code observes them.
-/

/-- Go strings as byte lists. -/
abbrev GoStr := List Nat

/-- Whether a byte is an ASCII decimal digit, as `strconv` classifies it. -/
def isDigitByte (b : Nat) : Bool := decide (48 ≤ b) && decide (b ≤ 57)

/-- Decimal value of a digit-byte string, most significant first
(the accumulation `strconv.ParseInt` performs). -/
def digitsVal (l : GoStr) : Nat := l.foldl (fun a b => a * 10 + (b - 48)) 0

/-- The digits part of `strconv.Atoi`: a non-empty all-digit string. -/
def parseUnsigned (l : GoStr) : Option Nat :=
  if l ≠ [] ∧ l.all isDigitByte then some (digitsVal l) else none

/-- Model of Go `strconv.Atoi` (= `ParseInt(s, 10, 0)` with 64-bit `int`):
an optional `+`/`-` sign, then one or more digits, value within the
`int64` range; any other input or an out-of-range value is an error
(`none`). -/
def goAtoi (s : GoStr) : Option Int :=
  match s with
  | [] => none
  | b :: rest =>
    if b = 45 then
      match parseUnsigned rest with
      | some n => if n ≤ 9223372036854775808 then some (-(n : Int)) else none
      | none => none
    else if b = 43 then
      match parseUnsigned rest with
      | some n => if n ≤ 9223372036854775807 then some (n : Int) else none
      | none => none
    else
      match parseUnsigned s with
      | some n => if n ≤ 9223372036854775807 then some (n : Int) else none
      | none => none

/-- Model of Go `strings.Split(s, ",")`: split at every comma byte;
always returns at least one (possibly empty) field. -/
def splitOnComma : GoStr → List GoStr
  | [] => [[]]
  | b :: rest =>
    if b = 44 then [] :: splitOnComma rest
    else
      match splitOnComma rest with
      | h :: t => (b :: h) :: t
      | [] => [[b]]

/-- Accumulator loop of decimal printing (`strconv.Itoa` for a
non-negative value): peel least-significant digits onto the front of
the accumulator.  The structural `fuel` argument only bounds the
number of iterations; any `fuel ≥ n` yields the digits of `n`. -/
def itoaGo (fuel : Nat) (n : Nat) (acc : List Nat) : List Nat :=
  match fuel with
  | 0 => acc
  | fuel + 1 => if n = 0 then acc else itoaGo fuel (n / 10) ((48 + n % 10) :: acc)

/-- Model of Go `strconv.Itoa` for a non-negative value: its decimal
digit bytes. -/
def itoaBytes (n : Nat) : GoStr := if n = 0 then [48] else itoaGo n n []

/-- The handoff-record serialization performed by `Restart()`
(graceful.go lines 146-153): `Itoa(major) ++ "," ++ Itoa(minor)` for the
`uint32` version fields. -/
def encodeVersion (major minor : Nat) : GoStr :=
  itoaBytes major ++ 44 :: itoaBytes minor

/-- The handoff-record decoding performed by `GetConnection`
(graceful.go lines 92-115): split on comma, demand exactly two fields,
`Atoi` each, then convert through Go `uint32(·)`, i.e. reduce mod 2^32. -/
def decodeVersion (s : GoStr) : Option (Nat × Nat) :=
  let fields := splitOnComma s
  if fields.length = 2 then
    match goAtoi (fields.getD 0 []), goAtoi (fields.getD 1 []) with
    | some ma, some mi =>
      some ((ma % 4294967296).toNat, (mi % 4294967296).toNat)
    | _, _ => none
  else none

/-- The spec's notion of a well-formed version field: a valid
non-negative integer, i.e. a non-empty unsigned digit string. -/
def isNonNegIntField (f : GoStr) : Bool := decide (f ≠ []) && f.all isDigitByte

/-! Controller construction (`NewGraceful`, graceful.go lines 52-64) and
recovery detection (`checkRecover`, lines 124-142).  `os.Getenv` returns
the empty string for an unset variable, so the inherited handoff record
is a `GoStr` where `[]` means absent. -/

/-- The parsing loop of `checkRecover` (graceful.go lines 134-141): walk
the comma-split fields, `Atoi` each; on the first parse error the
function logs and returns, keeping only the fields parsed so far. -/
def parseRecovered : List GoStr → List Int
  | [] => []
  | f :: rest =>
    match goAtoi f with
    | none => []
    | some v => v :: parseRecovered rest

/-- Model of `checkRecover` (graceful.go lines 124-142): result is the
pair (recovered flag, recoveredVer list).  An empty record leaves the
controller fresh; a present record marks it recovered and parses fields
until the first error, with no fatal path — the function always returns. -/
def checkRecover (env : GoStr) : Bool × List Int :=
  if env = [] then (false, [])
  else (true, parseRecovered (splitOnComma env))

/-- The controller fields the claims are about. -/
structure GracefulModel where
  recovered : Bool
  recoveredVer : List Int
  restartTimeout : Nat
  deriving DecidableEq

/-- Model of `NewGraceful` (graceful.go lines 52-64): run `checkRecover`
on the inherited record, then set `RestartTimeout = 60`.  The
constructor is total: it returns a controller for every input. -/
def NewGraceful (env : GoStr) : GracefulModel :=
  let cr := checkRecover env
  { recovered := cr.1, recoveredVer := cr.2, restartTimeout := 60 }

/-- Modelled from the spec (for the refinement comparison in claim C3,
"failing fatally if the encoding is malformed (wrong field count,
non-numeric values)"): a construction that returns `none` — fatal startup
failure — when the inherited record is present but has a wrong field
count or a non-numeric field. -/
def specConstruct (env : GoStr) : Option GracefulModel :=
  if env = [] then some { recovered := false, recoveredVer := [], restartTimeout := 60 }
  else
    let fields := splitOnComma env
    if fields.length = 2 ∧ fields.all (fun f => (goAtoi f).isSome) then
      some { recovered := true, recoveredVer := fields.filterMap goAtoi,
             restartTimeout := 60 }
    else none

/-! Session acquisition (`GetConnection`, graceful.go lines 81-121).
The external session constructor `newConnection` is an oracle input
(`hs`): `some c` models a successful handshake producing connection `c`,
`none` a handshake failure.  The opaque config/device fields of the Go
`Connection` are omitted; the fields the controller writes are kept. -/

/-- The connection fields `GetConnection` touches: the negotiated
protocol version and the cancellation table (modelled by its key set,
which `make(map[uint64]func())` initializes empty). -/
structure ConnModel where
  major : Nat
  minor : Nat
  cancelKeys : List Nat
  deriving DecidableEq

/-- The error outcomes of `GetConnection`, one per return site. -/
inductive GcErr
  | noVersion   -- "Cannot get fuse version" (env absent)
  | badLength   -- "Invalid version length" (field count ≠ 2)
  | badMajor    -- Atoi failure on the first field
  | badMinor    -- Atoi failure on the second field
  | external    -- error propagated from newConnection (fresh path)
  deriving DecidableEq

/-- Model of `GetConnection` (graceful.go lines 81-121).  Returns the
controller's `conn` field after the call (starting from a fresh
controller where it is nil/`none`) together with the returned error.
Faithful to the source order: env check, field-count check, then the
`conn` assignment with zero protocol and empty cancellation table, then
the two `Atoi` calls, then the `uint32(·)` conversions (reduce mod 2^32). -/
def GetConnection (recovered : Bool) (env : GoStr) (hs : Option ConnModel) :
    Option ConnModel × Option GcErr :=
  if recovered then
    if env = [] then (none, some GcErr.noVersion)
    else
      let fields := splitOnComma env
      if fields.length ≠ 2 then (none, some GcErr.badLength)
      else
        let conn0 : ConnModel := { major := 0, minor := 0, cancelKeys := [] }
        match goAtoi (fields.getD 0 []) with
        | none => (some conn0, some GcErr.badMajor)
        | some ma =>
          match goAtoi (fields.getD 1 []) with
          | none => (some conn0, some GcErr.badMinor)
          | some mi =>
            (some { major := (ma % 4294967296).toNat,
                    minor := (mi % 4294967296).toNat,
                    cancelKeys := [] }, none)
  else
    match hs with
    | some c => (some c, none)
    | none => (none, some GcErr.external)

/-! The restart operation (`Restart()`, graceful.go lines 145-187).
The OS-level outcomes the code branches on are oracle inputs: whether
`child.Start()` succeeds, the result of each `os.Stat` of the marker
path, whether the marker file actually exists at each poll (ground
truth, used only to track the post-state), whether `os.Remove`
succeeds, and whether `os.FindProcess` returns a nil error (the code
reads a nil error as "child process actually exists"). -/

/-- Outcome of one `os.Stat` call on the marker path, at the granularity
the code observes: nil error, an IsNotExist error, or any other error. -/
inductive StatRes
  | ok
  | notExist
  | otherErr
  deriving DecidableEq

/-- The two sentinel errors of `Restart()` (graceful.go lines 29-30). -/
inductive GErr
  | restartFailed     -- ErrGRestartFailed
  | childNotReady     -- ErrGRestartChildNotReady
  deriving DecidableEq

/-- Oracle inputs for one `Restart()` run. -/
structure RestartEnv where
  launchOk : Bool          -- child.Start() succeeded
  childPid : Nat           -- child.Process.Pid when launched
  stat : Nat → StatRes     -- outcome of os.Stat at poll i
  present : Nat → Bool     -- ground truth: marker file exists at poll i
  removeOk : Bool          -- os.Remove succeeds when attempted
  findOk : Bool            -- os.FindProcess returns a nil error

/-- The readiness-poll loop of `Restart()` (graceful.go lines 172-186),
polling from index `i` with `fuel` polls left.  Result: the Go return
value `(childPid, err)` (with `none` as the nil error) paired with
whether the marker file exists afterwards.  A poll observes the marker
whenever `os.Stat` does not report IsNotExist; it then calls
`os.Remove` ignoring its error and returns success.  When the fuel runs
out the code consults `os.FindProcess`. -/
def pollFrom (e : RestartEnv) : Nat → Nat → (Nat × Option GErr) × Bool
  | i, 0 =>
    (if e.findOk then (e.childPid, some GErr.childNotReady)
     else (0, some GErr.restartFailed), e.present i)
  | i, fuel + 1 =>
    if e.stat i ≠ StatRes.notExist then
      ((e.childPid, none), if e.removeOk then false else e.present i)
    else pollFrom e (i + 1) fuel

/-- Model of `Restart()` (graceful.go lines 145-187) after the handoff
record has been placed in the environment: launch the child, then poll
`timeout` times (`gr.RestartTimeout`). -/
def RestartModel (timeout : Nat) (e : RestartEnv) : (Nat × Option GErr) × Bool :=
  if e.launchOk then pollFrom e 0 timeout
  else ((0, some GErr.restartFailed), e.present 0)

/-! Pidfile writing (`WritePidFile`, graceful.go lines 244-266).  Each
fallible filesystem step is an oracle flag; on any failure the function
returns the error immediately (`none` here), otherwise the file content
evolves per the Go sequence: open O_CREATE|O_WRONLY (content kept),
seek 0, overwrite-in-place with the decimal pid, truncate to the number
of bytes written, sync. -/

/-- Success flags for the five fallible steps of `WritePidFile`. -/
structure PidOps where
  openOk : Bool
  seekOk : Bool
  writeOk : Bool
  truncOk : Bool
  syncOk : Bool
  deriving DecidableEq

/-- Model of `WritePidFile` (graceful.go lines 244-266): given the
previous content of `<runDir>/<progName>.pid` and the current pid,
returns the resulting file content, or `none` when a step fails and the
Go function returns a non-nil error. -/
def writePidFile (ops : PidOps) (old : GoStr) (pid : Nat) : Option GoStr :=
  if ¬ops.openOk then none
  else if ¬ops.seekOk then none
  else if ¬ops.writeOk then none
  else
    let w := itoaBytes pid
    let afterWrite := w ++ old.drop w.length
    if ¬ops.truncOk then none
    else
      let afterTrunc := afterWrite.take w.length
      if ¬ops.syncOk then none else some afterTrunc

/-! The signal-watch loop (`watchDaemon`, graceful.go lines 220-242) as
a small-step transition system.  `signal.Notify` feeds a buffered
channel of capacity one and drops a signal when the buffer is full;
`watchDaemon` blocks on the channel, then locks, checks and sets the
`restarting` flag, unlocks, and runs the callback synchronously; a nil
callback result makes the task return, a non-nil result clears the flag
and loops.  States carry one phase per watcher task (the mutex makes
the receive-check-set sequence atomic, so it is one step); callback
completion is a separate step whose boolean says whether the callback
returned nil. -/

/-- Phase of one watcher task: blocked at the select, inside the
callback, or returned. -/
inductive WPhase
  | waiting
  | running
  | done
  deriving DecidableEq

/-- State of the signal bridge: channel occupancy (capacity one),
the mutex-guarded `restarting` flag, the phase of each watcher task,
and how many times the restart callback has been invoked. -/
structure WDState where
  buf : Bool
  restarting : Bool
  phases : List WPhase
  invocations : Nat
  deriving DecidableEq

/-- Events: a signal delivery from the OS, task `i` winning the select
and running the guarded check, or task `i`'s callback returning
(`ok = true` for a nil error). -/
inductive WEv
  | deliver
  | receive (i : Nat)
  | finish (i : Nat) (ok : Bool)
  deriving DecidableEq

/-- Phase of task `i` (out-of-range ids read as `done`, which makes
every step a no-op for them). -/
def getPh (l : List WPhase) (i : Nat) : WPhase := l.getD i WPhase.done

/-- Replace the phase of task `i`. -/
def setPh : List WPhase → Nat → WPhase → List WPhase
  | [], _, _ => []
  | _ :: rest, 0, p => p :: rest
  | q :: rest, i + 1, p => q :: setPh rest i p

/-- One step of the signal bridge (graceful.go lines 220-242 plus the
`signal.Notify` channel contract). -/
def wstep (s : WDState) : WEv → WDState
  | WEv.deliver => if s.buf then s else { s with buf := true }
  | WEv.receive i =>
    if getPh s.phases i = WPhase.waiting ∧ s.buf then
      if s.restarting then { s with buf := false }
      else
        { s with
          buf := false
          restarting := true
          phases := setPh s.phases i WPhase.running
          invocations := s.invocations + 1 }
    else s
  | WEv.finish i ok =>
    if getPh s.phases i = WPhase.running then
      if ok then { s with phases := setPh s.phases i WPhase.done }
      else
        { s with
          phases := setPh s.phases i WPhase.waiting
          restarting := false }
    else s

/-- Run a sequence of events. -/
def wrun (s : WDState) (evs : List WEv) : WDState := evs.foldl wstep s

/-- Initial state with `k` watcher tasks: empty channel, flag clear,
all tasks waiting, no invocations yet. -/
def winit (k : Nat) : WDState :=
  { buf := false, restarting := false,
    phases := List.replicate k WPhase.waiting, invocations := 0 }

-- Basic lemmas about the byte-string helpers.

theorem splitOnComma_ne_nil (l : GoStr) : splitOnComma l ≠ [] := by
  induction l with
  | nil => simp [splitOnComma]
  | cons b rest ih =>
    simp only [splitOnComma]
    split
    · simp
    · cases h : splitOnComma rest with
      | nil => exact absurd h ih
      | cons x xs => simp

theorem splitOnComma_no_comma (a : GoStr) (h : ∀ x ∈ a, x ≠ 44) :
    splitOnComma a = [a] := by
  induction a with
  | nil => rfl
  | cons b rest ih =>
    have hb : b ≠ 44 := h b (by simp)
    have hrest : splitOnComma rest = [rest] := ih fun x hx => h x (by simp [hx])
    simp [splitOnComma, hb, hrest]

theorem splitOnComma_append (a b : GoStr) (h : ∀ x ∈ a, x ≠ 44) :
    splitOnComma (a ++ 44 :: b) = a :: splitOnComma b := by
  induction a with
  | nil => simp [splitOnComma]
  | cons x rest ih =>
    have hx : x ≠ 44 := h x (by simp)
    have hrest : splitOnComma (rest ++ 44 :: b) = rest :: splitOnComma b :=
      ih fun y hy => h y (by simp [hy])
    simp [splitOnComma, hx, hrest]

theorem itoaGo_zero (fuel : Nat) (acc : List Nat) : itoaGo fuel 0 acc = acc := by
  cases fuel <;> simp [itoaGo]

theorem itoaGo_acc (fuel : Nat) :
    ∀ n acc, itoaGo fuel n acc = itoaGo fuel n [] ++ acc := by
  induction fuel with
  | zero => intro n acc; simp [itoaGo]
  | succ fuel ih =>
    intro n acc
    by_cases h : n = 0
    · simp [itoaGo, h]
    · rw [itoaGo, itoaGo, if_neg h, if_neg h, ih (n / 10) ((48 + n % 10) :: acc),
        ih (n / 10) ((48 + n % 10) :: [])]
      simp

theorem digitsVal_append_digit (l : GoStr) (d : Nat) :
    digitsVal (l ++ [d]) = digitsVal l * 10 + (d - 48) := by
  simp [digitsVal, List.foldl_append]

theorem digitsVal_itoaGo (fuel : Nat) :
    ∀ n, 0 < n → n ≤ fuel → digitsVal (itoaGo fuel n []) = n := by
  induction fuel with
  | zero => intro n h hle; omega
  | succ fuel ih =>
    intro n h hle
    have hne : n ≠ 0 := Nat.pos_iff_ne_zero.mp h
    rw [itoaGo, if_neg hne, itoaGo_acc fuel (n / 10) ((48 + n % 10) :: []),
      digitsVal_append_digit]
    by_cases h10 : n / 10 = 0
    · rw [h10, itoaGo_zero]
      simp [digitsVal]
      omega
    · rw [ih (n / 10) (Nat.pos_of_ne_zero h10) (by omega)]
      omega

theorem itoaGo_digits (fuel : Nat) :
    ∀ n, ∀ b ∈ itoaGo fuel n [], 48 ≤ b ∧ b ≤ 57 := by
  induction fuel with
  | zero => intro n b hb; simp [itoaGo] at hb
  | succ fuel ih =>
    intro n b hb
    by_cases h : n = 0
    · simp [itoaGo, h] at hb
    · rw [itoaGo, if_neg h,
        itoaGo_acc fuel (n / 10) ((48 + n % 10) :: [])] at hb
      rcases List.mem_append.mp hb with h1 | h2
      · exact ih (n / 10) b h1
      · have : b = 48 + n % 10 := by simpa using h2
        have : n % 10 < 10 := Nat.mod_lt n (by norm_num)
        omega

theorem itoaBytes_digits (n : Nat) :
    ∀ b ∈ itoaBytes n, 48 ≤ b ∧ b ≤ 57 := by
  intro b hb
  by_cases h : n = 0
  · subst h; simp [itoaBytes] at hb; omega
  · rw [itoaBytes, if_neg h] at hb
    exact itoaGo_digits n n b hb

theorem itoaBytes_ne_nil (n : Nat) : itoaBytes n ≠ [] := by
  by_cases h : n = 0
  · subst h; simp [itoaBytes]
  · rcases n with _ | m
    · exact absurd rfl h
    · rw [itoaBytes, if_neg h, itoaGo, if_neg h,
        itoaGo_acc m ((m + 1) / 10) ((48 + (m + 1) % 10) :: [])]
      simp

theorem digitsVal_itoaBytes (n : Nat) : digitsVal (itoaBytes n) = n := by
  by_cases h : n = 0
  · subst h; simp [itoaBytes, digitsVal]
  · rw [itoaBytes, if_neg h]
    exact digitsVal_itoaGo n n (Nat.pos_of_ne_zero h) le_rfl

theorem parseUnsigned_itoaBytes (n : Nat) :
    parseUnsigned (itoaBytes n) = some n := by
  have hall : (itoaBytes n).all isDigitByte = true := by
    rw [List.all_eq_true]
    intro b hb
    have := itoaBytes_digits n b hb
    simp [isDigitByte]
    omega
  rw [parseUnsigned, if_pos ⟨itoaBytes_ne_nil n, hall⟩, digitsVal_itoaBytes]

theorem goAtoi_itoaBytes (n : Nat) (h : n ≤ 9223372036854775807) :
    goAtoi (itoaBytes n) = some (n : Int) := by
  rcases hcons : itoaBytes n with _ | ⟨b, rest⟩
  · exact absurd hcons (itoaBytes_ne_nil n)
  · have hb : 48 ≤ b ∧ b ≤ 57 := by
      apply itoaBytes_digits n
      rw [hcons]; simp
    have hb45 : b ≠ 45 := by omega
    have hb43 : b ≠ 43 := by omega
    have := parseUnsigned_itoaBytes n
    rw [hcons] at this
    simp [goAtoi, hb45, hb43, this, h]

theorem splitOnComma_encodeVersion (m n : Nat) :
    splitOnComma (encodeVersion m n) = [itoaBytes m, itoaBytes n] := by
  have hm : ∀ x ∈ itoaBytes m, x ≠ 44 := fun x hx => by
    have := itoaBytes_digits m x hx; omega
  have hn : ∀ x ∈ itoaBytes n, x ≠ 44 := fun x hx => by
    have := itoaBytes_digits n x hx; omega
  rw [encodeVersion, splitOnComma_append _ _ hm, splitOnComma_no_comma _ hn]

theorem encodeVersion_ne_nil (m n : Nat) : encodeVersion m n ≠ [] := by
  simp [encodeVersion]

theorem parseRecovered_all (l : List GoStr)
    (h : ∀ f ∈ l, (goAtoi f).isSome = true) :
    parseRecovered l = l.filterMap goAtoi := by
  induction l with
  | nil => rfl
  | cons f rest ih =>
    have hf := h f (by simp)
    rcases hx : goAtoi f with _ | v
    · rw [hx] at hf; simp at hf
    · rw [parseRecovered, hx, List.filterMap_cons, hx,
        ih fun g hg => h g (by simp [hg])]

/-- Claim C7: round-trip of the handoff encoding — for every pair of
non-negative integers representable in the `uint32` version fields,
decoding the string produced by encoding (serializing as
"major,minor", then splitting on the comma and parsing each field)
yields exactly (major, minor). -/
theorem c7_roundtrip (m n : Nat) (hm : m < 4294967296) (hn : n < 4294967296) :
    decodeVersion (encodeVersion m n) = some (m, n) := by
  simp only [decodeVersion, splitOnComma_encodeVersion, List.length_cons,
    List.length_nil, List.getD_cons_zero, List.getD_cons_succ]
  rw [goAtoi_itoaBytes m (by omega), goAtoi_itoaBytes n (by omega)]
  simp only [if_pos rfl]
  have h1 : ((m : Int) % 4294967296).toNat = m := by omega
  have h2 : ((n : Int) % 4294967296).toNat = n := by omega
  simp [h1, h2]

/-- Witness for C7 at the spec's scenario values (7, 31). -/
theorem c7_witness : decodeVersion (encodeVersion 7 31) = some (7, 31) :=
  c7_roundtrip 7 31 (by decide) (by decide)

/-- Claim C8: WritePidFile writes the current pid as decimal text by
open-or-create, seek to start, write, truncate to the exact written
length and durable flush, so for every previous file content the file
afterwards contains exactly the new pid's decimal digits with no
trailing bytes. -/
theorem c8_pidfile_exact (ops : PidOps) (old : GoStr) (pid : Nat) (c : GoStr)
    (h : writePidFile ops old pid = some c) : c = itoaBytes pid := by
  unfold writePidFile at h
  split_ifs at h
  all_goals simp at h
  exact h.symm

/-- Witness for C8: previous content "123456", new pid 7 — the file ends
up containing exactly "7". -/
theorem c8_witness :
    writePidFile ⟨true, true, true, true, true⟩ [49, 50, 51, 52, 53, 54] 7 =
      some [55] ∧ [55] = itoaBytes 7 :=
  ⟨by decide,
   c8_pidfile_exact ⟨true, true, true, true, true⟩ [49, 50, 51, 52, 53, 54] 7
     [55] (by decide)⟩

/-- Claim C3 counterexample: with the malformed inherited record "a,b"
(bytes 97,44,98 — two fields, both non-numeric), construction completes
normally — the controller is returned with `recovered = true`, an empty
parsed-version list and the default timeout — whereas the claim's
fail-fatally-on-malformed-encoding behaviour (`specConstruct`) would
abort startup. -/
theorem c3_counterexample :
    NewGraceful [97, 44, 98] =
      { recovered := true, recoveredVer := [], restartTimeout := 60 } ∧
    specConstruct [97, 44, 98] = none := by
  decide

/-- Claim C3 (amended): on construction the controller inspects the
inherited handoff record; if present it marks itself recovered and
parses the version fields, but a malformed encoding is not fatal —
`checkRecover` stops parsing at the first non-numeric field, keeps the
prefix parsed so far, and construction always completes with the
default 60-second timeout (the malformed record only produces an error
later, in `GetConnection`).  When every field is numeric the whole list
is parsed. -/
theorem c3_construction (env : GoStr) :
    (NewGraceful env).restartTimeout = 60 ∧
    ((NewGraceful env).recovered = true ↔ env ≠ []) ∧
    (env ≠ [] → (splitOnComma env).all (fun f => (goAtoi f).isSome) = true →
      (NewGraceful env).recoveredVer = (splitOnComma env).filterMap goAtoi) := by
  refine ⟨rfl, ?_, ?_⟩
  · by_cases h : env = [] <;> simp [NewGraceful, checkRecover, h]
  · intro h hall
    simp only [NewGraceful, checkRecover, if_neg h]
    exact parseRecovered_all _ (List.all_eq_true.mp hall)

/-- Witness for C3 (amended) at the well-formed record "7,31". -/
theorem c3_witness :
    ([55, 44, 51, 49] : GoStr) ≠ [] ∧
    (splitOnComma [55, 44, 51, 49]).all (fun f => (goAtoi f).isSome) = true ∧
    (NewGraceful [55, 44, 51, 49]).recoveredVer =
      (splitOnComma [55, 44, 51, 49]).filterMap goAtoi :=
  ⟨by decide, by decide,
   (c3_construction [55, 44, 51, 49]).2.2 (by decide) (by decide)⟩

/-- Claim C4 counterexample: with the recovered-path record "-1,2"
(bytes 45,49,44,50), the first field "-1" is not a valid non-negative
integer, yet `GetConnection` returns no error — `strconv.Atoi` accepts
the sign and the `uint32` conversion wraps −1 to 4294967295 — so the
claim's "returns an error whenever ... a field ... is not a valid
non-negative integer" fails at this input. -/
theorem c4_counterexample :
    isNonNegIntField [45, 49] = false ∧
    splitOnComma [45, 49, 44, 50] = [[45, 49], [50]] ∧
    GetConnection true [45, 49, 44, 50] none =
      (some { major := 4294967295, minor := 2, cancelKeys := [] }, none) := by
  decide

/-- Claim C4 (amended): on a recovered controller, `GetConnection`
returns an error exactly when the handoff record is absent, does not
have exactly two comma-separated fields, or has a field rejected by
`strconv.Atoi` (empty, a non-digit after the optional sign, or outside
the int64 range); a field with a leading sign is accepted, the parsed
value being reduced mod 2^32 by the `uint32` conversion.  For every
record "major,minor" built from non-negative integers below 2^32 it
produces a session with exactly that version and an empty cancellation
table, independent of the handshake collaborator; on a fresh controller
it returns whatever the external session constructor produced. -/
theorem c4_session_acquisition :
    (∀ env hs, ((GetConnection true env hs).2 = none ↔
      env ≠ [] ∧ (splitOnComma env).length = 2 ∧
      (goAtoi ((splitOnComma env).getD 0 [])).isSome = true ∧
      (goAtoi ((splitOnComma env).getD 1 [])).isSome = true)) ∧
    (∀ m n hs, m < 4294967296 → n < 4294967296 →
      GetConnection true (encodeVersion m n) hs =
        (some { major := m, minor := n, cancelKeys := [] }, none)) ∧
    (∀ env hs, GetConnection false env hs =
      (hs, match hs with | some _ => none | none => some GcErr.external)) := by
  refine ⟨?_, ?_, ?_⟩
  · intro env hs
    by_cases henv : env = []
    · simp [GetConnection, henv]
    · by_cases hlen : (splitOnComma env).length = 2
      · obtain ⟨f0, f1, hsplit⟩ := List.length_eq_two.mp hlen
        rcases h0 : goAtoi f0 with _ | v0
        · simp [GetConnection, henv, hsplit, h0]
        · rcases h1 : goAtoi f1 with _ | v1
          · simp [GetConnection, henv, hsplit, h0, h1]
          · simp [GetConnection, henv, hsplit, h0, h1]
      · simp [GetConnection, henv, hlen]
  · intro m n hs hm hn
    have henv := encodeVersion_ne_nil m n
    have h0 : ((m : Int) % 4294967296).toNat = m := by omega
    have h1 : ((n : Int) % 4294967296).toNat = n := by omega
    simp [GetConnection, henv, splitOnComma_encodeVersion,
      goAtoi_itoaBytes m (by omega), goAtoi_itoaBytes n (by omega), h0, h1]
  · intro env hs
    cases hs <;> simp [GetConnection]

/-- Witness for C4 (amended) at the record "7,31". -/
theorem c4_witness :
    7 < 4294967296 ∧ 31 < 4294967296 ∧
    GetConnection true (encodeVersion 7 31) none =
      (some { major := 7, minor := 31, cancelKeys := [] }, none) :=
  ⟨by decide, by decide,
   c4_session_acquisition.2.1 7 31 none (by decide) (by decide)⟩

/-- Claim C10: on a recovered start with a two-field record, the
connection field is assigned (empty cancellation table, zero protocol
version) before the numeric validation of the fields, so when an `Atoi`
failure makes `GetConnection` return an error the controller is left
holding that partially initialized connection — the error path is not
atomic. -/
theorem c10_partial_connection (env : GoStr) (hs : Option ConnModel)
    (hlen : (splitOnComma env).length = 2)
    (hbad : goAtoi ((splitOnComma env).getD 0 []) = none ∨
      goAtoi ((splitOnComma env).getD 1 []) = none) :
    (GetConnection true env hs).1 =
      some { major := 0, minor := 0, cancelKeys := [] } ∧
    ((GetConnection true env hs).2).isSome = true := by
  have henv : env ≠ [] := by
    intro h; subst h; simp [splitOnComma] at hlen
  obtain ⟨f0, f1, hsplit⟩ := List.length_eq_two.mp hlen
  rw [hsplit] at hbad
  simp only [List.getD_cons_zero, List.getD_cons_succ] at hbad
  rcases h0 : goAtoi f0 with _ | v0
  · simp [GetConnection, henv, hsplit, h0]
  · rcases h1 : goAtoi f1 with _ | v1
    · simp [GetConnection, henv, hsplit, h0, h1]
    · rcases hbad with hb | hb
      · rw [h0] at hb; cases hb
      · rw [h1] at hb; cases hb

/-- Witness for C10 at the record "x,2" (bytes 120,44,50): the first
field fails parsing, the error is returned, and the controller holds the
zero-version connection. -/
theorem c10_witness :
    (splitOnComma [120, 44, 50]).length = 2 ∧
    (GetConnection true [120, 44, 50] none).1 =
      some { major := 0, minor := 0, cancelKeys := [] } ∧
    ((GetConnection true [120, 44, 50] none).2).isSome = true :=
  ⟨by decide,
   (c10_partial_connection [120, 44, 50] none (by decide)
     (Or.inl (by decide))).1,
   (c10_partial_connection [120, 44, 50] none (by decide)
     (Or.inl (by decide))).2⟩

theorem pollFrom_timeout (e : RestartEnv) :
    ∀ fuel i, (∀ j, j < fuel → e.stat (i + j) = StatRes.notExist) →
    pollFrom e i fuel =
      ((if e.findOk then (e.childPid, some GErr.childNotReady)
        else (0, some GErr.restartFailed)), e.present (i + fuel)) := by
  intro fuel
  induction fuel with
  | zero => intro i h; simp [pollFrom]
  | succ fuel ih =>
    intro i h
    have h0 : e.stat i = StatRes.notExist := by simpa using h 0 (by omega)
    have hrest : ∀ j, j < fuel → e.stat (i + 1 + j) = StatRes.notExist := by
      intro j hj
      have heq : i + 1 + j = i + (j + 1) := by omega
      rw [heq]; exact h (j + 1) (by omega)
    have hpr : i + 1 + fuel = i + (fuel + 1) := by omega
    simp only [pollFrom, h0, ne_eq, not_true_eq_false, if_false, ite_false]
    rw [ih (i + 1) hrest, hpr]

theorem pollFrom_first (e : RestartEnv) :
    ∀ fuel i k, k < fuel → (∀ j, j < k → e.stat (i + j) = StatRes.notExist) →
    e.stat (i + k) ≠ StatRes.notExist →
    pollFrom e i fuel =
      ((e.childPid, none), if e.removeOk then false else e.present (i + k)) := by
  intro fuel
  induction fuel with
  | zero => intro i k hk; omega
  | succ fuel ih =>
    intro i k hk hfirst hobs
    cases k with
    | zero =>
      have h0 : e.stat i ≠ StatRes.notExist := by simpa using hobs
      simp [pollFrom, h0]
    | succ k =>
      have h0 : e.stat i = StatRes.notExist := by simpa using hfirst 0 (by omega)
      have heq : i + 1 + k = i + (k + 1) := by omega
      simp only [pollFrom, h0, ne_eq, not_true_eq_false, if_false, ite_false]
      rw [ih (i + 1) k (by omega)
        (fun j hj => by
          have hjeq : i + 1 + j = i + (j + 1) := by omega
          rw [hjeq]; exact hfirst (j + 1) (by omega))
        (by rw [heq]; exact hobs), heq]

theorem pollFrom_success (e : RestartEnv) (hrm : e.removeOk = true) :
    ∀ fuel i, (∃ k, k < fuel ∧ e.stat (i + k) ≠ StatRes.notExist) →
    pollFrom e i fuel = ((e.childPid, none), false) := by
  intro fuel
  induction fuel with
  | zero => rintro i ⟨k, hk, _⟩; omega
  | succ fuel ih =>
    rintro i ⟨k, hk, hobs⟩
    by_cases h0 : e.stat i = StatRes.notExist
    · cases k with
      | zero => rw [Nat.add_zero] at hobs; exact absurd h0 hobs
      | succ k =>
        simp only [pollFrom, h0, ne_eq, not_true_eq_false, if_false, ite_false]
        exact ih (i + 1) ⟨k, by omega, by
          have heq : i + 1 + k = i + (k + 1) := by omega
          rw [heq]; exact hobs⟩
    · simp [pollFrom, h0, hrm]

/-- Claim C1: Restart() classifies its failures into the two sentinel
errors — a launch failure yields `ErrGRestartFailed` with a zero pid
(the current process keeps serving, the model state being untouched);
when the readiness timeout elapses with every stat reporting
IsNotExist, it yields `ErrGRestartChildNotReady` when the
`os.FindProcess` check says the child process still exists (nil error)
and `ErrGRestartFailed` when it is gone. -/
theorem c1_error_classification (t : Nat) (e : RestartEnv) :
    (e.launchOk = false → (RestartModel t e).1 = (0, some GErr.restartFailed)) ∧
    (e.launchOk = true → (∀ j, j < t → e.stat j = StatRes.notExist) →
      (RestartModel t e).1 =
        if e.findOk then (e.childPid, some GErr.childNotReady)
        else (0, some GErr.restartFailed)) := by
  constructor
  · intro h; simp [RestartModel, h]
  · intro hl hall
    rw [RestartModel, if_pos hl,
      pollFrom_timeout e t 0 fun j hj => by simpa using hall j hj]

/-- Witness for C1: a failed launch, a timeout with the child alive, and
a timeout with the child gone, each at a concrete environment. -/
theorem c1_witness :
    (RestartModel 1
      { launchOk := false, childPid := 0, stat := fun _ => StatRes.notExist,
        present := fun _ => false, removeOk := true, findOk := true }).1 =
      (0, some GErr.restartFailed) ∧
    (RestartModel 1
      { launchOk := true, childPid := 7, stat := fun _ => StatRes.notExist,
        present := fun _ => false, removeOk := true, findOk := true }).1 =
      (7, some GErr.childNotReady) ∧
    (RestartModel 1
      { launchOk := true, childPid := 7, stat := fun _ => StatRes.notExist,
        present := fun _ => false, removeOk := true, findOk := false }).1 =
      (0, some GErr.restartFailed) :=
  ⟨(c1_error_classification 1 _).1 rfl,
   by
    have h := (c1_error_classification 1
      { launchOk := true, childPid := 7, stat := fun _ => StatRes.notExist,
        present := fun _ => false, removeOk := true, findOk := true }).2
      rfl (fun j _ => rfl)
    simpa using h,
   by
    have h := (c1_error_classification 1
      { launchOk := true, childPid := 7, stat := fun _ => StatRes.notExist,
        present := fun _ => false, removeOk := true, findOk := false }).2
      rfl (fun j _ => rfl)
    simpa using h⟩

/-- Claim C2: after a successful launch, Restart() polls the readiness
marker once per iteration for at most the configured timeout (which
`NewGraceful` defaults to 60); when some poll within the timeout
observes the marker it deletes it and returns `(childPid, nil)`, and
when the deletion succeeds the marker file no longer exists afterwards. -/
theorem c2_restart_success (t : Nat) (e : RestartEnv)
    (hl : e.launchOk = true) (hrm : e.removeOk = true)
    (hobs : ∃ k, k < t ∧ e.stat k ≠ StatRes.notExist) :
    RestartModel t e = ((e.childPid, none), false) ∧
    ∀ env, (NewGraceful env).restartTimeout = 60 := by
  constructor
  · rw [RestartModel, if_pos hl]
    apply pollFrom_success e hrm t 0
    rcases hobs with ⟨k, hk, h⟩
    exact ⟨k, hk, by simpa using h⟩
  · intro env; rfl

/-- Witness for C2: the marker appears at the second poll with two polls
of budget; the restart returns the child pid with a nil error and the
marker is gone. -/
theorem c2_witness :
    ((fun i => if i = 0 then StatRes.notExist else StatRes.ok) 1 ≠
      StatRes.notExist) ∧
    RestartModel 2
      { launchOk := true, childPid := 9,
        stat := fun i => if i = 0 then StatRes.notExist else StatRes.ok,
        present := fun i => decide (i = 1), removeOk := true,
        findOk := true } = ((9, none), false) :=
  ⟨by decide,
   (c2_restart_success 2
     { launchOk := true, childPid := 9,
       stat := fun i => if i = 0 then StatRes.notExist else StatRes.ok,
       present := fun i => decide (i = 1), removeOk := true,
       findOk := true } rfl rfl ⟨1, by omega, by decide⟩).1⟩

/-- Claim C9: in the readiness-poll loop, every stat outcome other than
an IsNotExist error — including other stat failures such as permission
errors — is treated as the marker being present: deletion is attempted
with its error ignored and Restart() returns `(childPid, nil)`
regardless of whether the marker file actually existed or was removed. -/
theorem c9_stat_error_success (t k : Nat) (e : RestartEnv)
    (hl : e.launchOk = true) (hk : k < t)
    (hfirst : ∀ j, j < k → e.stat j = StatRes.notExist)
    (hobs : e.stat k ≠ StatRes.notExist) :
    RestartModel t e =
      ((e.childPid, none), if e.removeOk then false else e.present k) := by
  rw [RestartModel, if_pos hl,
    pollFrom_first e t 0 k hk (fun j hj => by simpa using hfirst j hj)
      (by simpa using hobs)]
  simp

/-- Witness for C9: the very first stat reports a non-IsNotExist error
while the marker never exists and removal fails; Restart() still
succeeds with the child pid. -/
theorem c9_witness :
    ((fun _ : Nat => StatRes.otherErr) 0 ≠ StatRes.notExist) ∧
    RestartModel 1
      { launchOk := true, childPid := 5, stat := fun _ => StatRes.otherErr,
        present := fun _ => false, removeOk := false, findOk := true } =
      ((5, none), false) :=
  ⟨by decide,
   by
    have h := c9_stat_error_success 1 0
      { launchOk := true, childPid := 5, stat := fun _ => StatRes.otherErr,
        present := fun _ => false, removeOk := false, findOk := true }
      rfl (by omega) (fun j hj => absurd hj (Nat.not_lt_zero j)) (by decide)
    simpa using h⟩

theorem getPh_done_of_ge (l : List WPhase) :
    ∀ i, l.length ≤ i → getPh l i = WPhase.done := by
  induction l with
  | nil => intro i _; rfl
  | cons q rest ih =>
    intro i hi
    cases i with
    | zero => simp at hi
    | succ i =>
      simp only [getPh, List.getD_cons_succ]
      exact ih i (by simpa using hi)

theorem getPh_ne_done_lt (l : List WPhase) (i : Nat)
    (h : getPh l i ≠ WPhase.done) : i < l.length := by
  by_contra hcon
  exact h (getPh_done_of_ge l i (by omega))

theorem getPh_setPh_self (l : List WPhase) (i : Nat) (p : WPhase)
    (h : i < l.length) : getPh (setPh l i p) i = p := by
  induction l generalizing i with
  | nil => simp at h
  | cons q rest ih =>
    cases i with
    | zero => rfl
    | succ i =>
      simp only [setPh, getPh, List.getD_cons_succ]
      exact ih i (by simpa using h)

theorem getPh_setPh_ne (l : List WPhase) (i j : Nat) (p : WPhase)
    (h : j ≠ i) : getPh (setPh l i p) j = getPh l j := by
  induction l generalizing i j with
  | nil => simp [setPh]
  | cons q rest ih =>
    cases i with
    | zero =>
      cases j with
      | zero => omega
      | succ j => rfl
    | succ i =>
      cases j with
      | zero => rfl
      | succ j =>
        simp only [setPh, getPh, List.getD_cons_succ]
        exact ih i j (by omega)

theorem wstep_preserves (s : WDState) (ev : WEv)
    (h1 : ∀ i j, getPh s.phases i = WPhase.running →
      getPh s.phases j = WPhase.running → i = j)
    (h2 : ∀ i, getPh s.phases i = WPhase.running → s.restarting = true) :
    (∀ i j, getPh (wstep s ev).phases i = WPhase.running →
      getPh (wstep s ev).phases j = WPhase.running → i = j) ∧
    (∀ i, getPh (wstep s ev).phases i = WPhase.running →
      (wstep s ev).restarting = true) := by
  cases ev with
  | deliver =>
    have hph : (wstep s WEv.deliver).phases = s.phases := by
      simp only [wstep]; split <;> rfl
    have hres : (wstep s WEv.deliver).restarting = s.restarting := by
      simp only [wstep]; split <;> rfl
    rw [hph, hres]
    exact ⟨h1, h2⟩
  | receive i =>
    simp only [wstep]
    by_cases hc : getPh s.phases i = WPhase.waiting ∧ s.buf = true
    · rw [if_pos hc]
      by_cases hr : s.restarting = true
      · rw [if_pos hr]
        exact ⟨h1, fun a ha => h2 a ha⟩
      · rw [if_neg hr]
        have hnorun : ∀ a, getPh s.phases a ≠ WPhase.running :=
          fun a ha => hr (h2 a ha)
        have key : ∀ c, getPh (setPh s.phases i WPhase.running) c =
            WPhase.running → c = i := by
          intro c hcrun
          by_contra hci
          rw [getPh_setPh_ne s.phases i c WPhase.running hci] at hcrun
          exact hnorun c hcrun
        exact ⟨fun a b ha hb => by rw [key a ha, key b hb],
          fun a _ => rfl⟩
    · rw [if_neg hc]; exact ⟨h1, h2⟩
  | finish i ok =>
    simp only [wstep]
    by_cases hc : getPh s.phases i = WPhase.running
    · rw [if_pos hc]
      have hi : i < s.phases.length :=
        getPh_ne_done_lt s.phases i (by rw [hc]; intro hcon; cases hcon)
      by_cases hok : ok = true
      · rw [if_pos hok]
        have hne : ∀ a, getPh (setPh s.phases i WPhase.done) a =
            WPhase.running → a ≠ i := by
          intro a ha he
          subst he
          rw [getPh_setPh_self s.phases a WPhase.done hi] at ha
          cases ha
        constructor
        · intro a b ha hb
          rw [getPh_setPh_ne s.phases i a WPhase.done (hne a ha)] at ha
          rw [getPh_setPh_ne s.phases i b WPhase.done (hne b hb)] at hb
          exact h1 a b ha hb
        · intro a ha
          rw [getPh_setPh_ne s.phases i a WPhase.done (hne a ha)] at ha
          exact h2 a ha
      · rw [if_neg hok]
        have hnone : ∀ a, getPh (setPh s.phases i WPhase.waiting) a ≠
            WPhase.running := by
          intro a ha
          by_cases hai : a = i
          · subst hai
            rw [getPh_setPh_self s.phases a WPhase.waiting hi] at ha
            cases ha
          · rw [getPh_setPh_ne s.phases i a WPhase.waiting hai] at ha
            exact hai (h1 a i ha hc)
        exact ⟨fun a b ha _ => absurd ha (hnone a),
          fun a ha => absurd ha (hnone a)⟩
    · rw [if_neg hc]; exact ⟨h1, h2⟩

theorem wrun_preserves (evs : List WEv) :
    ∀ s : WDState,
    (∀ i j, getPh s.phases i = WPhase.running →
      getPh s.phases j = WPhase.running → i = j) →
    (∀ i, getPh s.phases i = WPhase.running → s.restarting = true) →
    (∀ i j, getPh (wrun s evs).phases i = WPhase.running →
      getPh (wrun s evs).phases j = WPhase.running → i = j) ∧
    (∀ i, getPh (wrun s evs).phases i = WPhase.running →
      (wrun s evs).restarting = true) := by
  induction evs with
  | nil => intro s h1 h2; exact ⟨h1, h2⟩
  | cons ev evs ih =>
    intro s h1 h2
    have h := wstep_preserves s ev h1 h2
    simpa only [wrun, List.foldl_cons] using ih (wstep s ev) h.1 h.2

theorem getPh_replicate_waiting (k : Nat) :
    ∀ i, getPh (List.replicate k WPhase.waiting) i ≠ WPhase.running := by
  induction k with
  | zero => intro i h; cases h
  | succ k ih =>
    intro i
    cases i with
    | zero => intro h; cases h
    | succ i =>
      simp only [List.replicate_succ, getPh, List.getD_cons_succ]
      exact ih i

theorem wrun_deliver_invocations (n : Nat) :
    ∀ s : WDState,
    (wrun s (List.replicate n WEv.deliver)).invocations = s.invocations := by
  induction n with
  | zero => intro s; rfl
  | succ n ih =>
    intro s
    have hstep : (wstep s WEv.deliver).invocations = s.invocations := by
      simp only [wstep]; split <;> rfl
    simp only [List.replicate_succ, wrun, List.foldl_cons]
    simpa only [wrun] using (ih (wstep s WEv.deliver)).trans hstep

theorem wrun_frozen (evs : List WEv) :
    ∀ s : WDState, s.restarting = true →
    (∀ j, getPh s.phases j ≠ WPhase.running) →
    (wrun s evs).invocations = s.invocations ∧
    (wrun s evs).phases = s.phases ∧
    (wrun s evs).restarting = true := by
  induction evs with
  | nil => intro s h1 _; exact ⟨rfl, rfl, h1⟩
  | cons ev evs ih =>
    intro s h1 h2
    have hstep : (wstep s ev).invocations = s.invocations ∧
        (wstep s ev).phases = s.phases ∧
        (wstep s ev).restarting = true := by
      cases ev with
      | deliver => simp only [wstep]; split <;> exact ⟨rfl, rfl, h1⟩
      | receive i =>
        simp only [wstep]
        by_cases hc : getPh s.phases i = WPhase.waiting ∧ s.buf = true
        · rw [if_pos hc, if_pos h1]; exact ⟨rfl, rfl, h1⟩
        · rw [if_neg hc]; exact ⟨rfl, rfl, h1⟩
      | finish i ok =>
        simp only [wstep]
        rw [if_neg (h2 i)]; exact ⟨rfl, rfl, h1⟩
    have hrec := ih (wstep s ev) hstep.2.2 (by rw [hstep.2.1]; exact h2)
    exact ⟨hrec.1.trans hstep.1, hrec.2.1.trans hstep.2.1, hrec.2.2⟩

/-- Claim C5: at most one restart is in progress per controller at any
time (invariant I1): in every state reachable by any interleaving of
signal deliveries and watcher steps, at most one watcher task is inside
the restart callback, enforced by the mutex-guarded restarting flag;
moreover a signal delivered while the one-slot notification channel is
already full is dropped, and deliveries alone never invoke the callback
— so a burst of extra restart signals during a running callback leaves
the invocation count unchanged. -/
theorem c5_debounce (k : Nat) (evs : List WEv) :
    (∀ i j, getPh (wrun (winit k) evs).phases i = WPhase.running →
      getPh (wrun (winit k) evs).phases j = WPhase.running → i = j) ∧
    (∀ s : WDState, s.buf = true → wstep s WEv.deliver = s) ∧
    (∀ n, (wrun (wrun (winit k) evs) (List.replicate n WEv.deliver)).invocations
      = (wrun (winit k) evs).invocations) := by
  refine ⟨?_, ?_, ?_⟩
  · exact (wrun_preserves evs (winit k)
      (fun i j hi _ => absurd hi (getPh_replicate_waiting k i))
      (fun i hi => absurd hi (getPh_replicate_waiting k i))).1
  · intro s hb; simp only [wstep, hb, if_pos]
  · intro n; exact wrun_deliver_invocations n (wrun (winit k) evs)

/-- Witness for C5: with two watcher tasks, after one delivery and one
receive, task 0 is running; the uniqueness conclusion applies at (0, 0),
and three further deliveries leave the single invocation count intact. -/
theorem c5_witness :
    getPh (wrun (winit 2) [WEv.deliver, WEv.receive 0]).phases 0 =
      WPhase.running ∧
    (0 : Nat) = 0 ∧
    (wrun (wrun (winit 2) [WEv.deliver, WEv.receive 0])
      (List.replicate 3 WEv.deliver)).invocations =
      (wrun (winit 2) [WEv.deliver, WEv.receive 0]).invocations :=
  ⟨by decide,
   (c5_debounce 2 [WEv.deliver, WEv.receive 0]).1 0 0 (by decide) (by decide),
   (c5_debounce 2 [WEv.deliver, WEv.receive 0]).2.2 3⟩

/-- Claim C6: continuation policy of the signal-watch loop — when the
restart callback returns nil the watch task moves to `done` and, the
flag staying set with no task running, every later event sequence
leaves the invocation count and all task phases unchanged (no further
restart signal is ever acted on); when the callback returns an error
the restarting flag is cleared, the task returns to waiting, and a
subsequent delivery plus receive produces a new callback invocation
(retry after failure). -/
theorem c6_continuation (s : WDState) (i : Nat)
    (hrun : getPh s.phases i = WPhase.running)
    (huniq : ∀ j, getPh s.phases j = WPhase.running → j = i)
    (hres : s.restarting = true) :
    (getPh (wstep s (WEv.finish i true)).phases i = WPhase.done ∧
     ∀ evs, (wrun (wstep s (WEv.finish i true)) evs).invocations =
         s.invocations ∧
       (wrun (wstep s (WEv.finish i true)) evs).phases =
         (wstep s (WEv.finish i true)).phases) ∧
    ((wstep s (WEv.finish i false)).restarting = false ∧
     getPh (wstep s (WEv.finish i false)).phases i = WPhase.waiting ∧
     (wrun (wstep s (WEv.finish i false))
       [WEv.deliver, WEv.receive i]).invocations = s.invocations + 1) := by
  have hi : i < s.phases.length :=
    getPh_ne_done_lt s.phases i (by rw [hrun]; intro hcon; cases hcon)
  have hok : wstep s (WEv.finish i true) =
      { s with phases := setPh s.phases i WPhase.done } := by
    simp [wstep, hrun]
  have herr : wstep s (WEv.finish i false) =
      { s with phases := setPh s.phases i WPhase.waiting, restarting := false } := by
    simp [wstep, hrun]
  constructor
  · constructor
    · rw [hok]
      exact getPh_setPh_self s.phases i WPhase.done hi
    · intro evs
      have hno : ∀ j, getPh (setPh s.phases i WPhase.done) j ≠
          WPhase.running := by
        intro j hj
        by_cases hji : j = i
        · subst hji
          rw [getPh_setPh_self s.phases j WPhase.done hi] at hj
          cases hj
        · rw [getPh_setPh_ne s.phases i j WPhase.done hji] at hj
          exact hji (huniq j hj)
      have hfr := wrun_frozen evs (wstep s (WEv.finish i true))
        (by rw [hok]; exact hres) (by rw [hok]; exact hno)
      exact ⟨hfr.1.trans (by rw [hok]), hfr.2.1⟩
  · have h1ph : getPh (wstep s (WEv.finish i false)).phases i =
        WPhase.waiting := by
      rw [herr]
      exact getPh_setPh_self s.phases i WPhase.waiting hi
    have h1res : (wstep s (WEv.finish i false)).restarting = false := by
      rw [herr]
    have h1inv : (wstep s (WEv.finish i false)).invocations =
        s.invocations := by
      rw [herr]
    refine ⟨h1res, h1ph, ?_⟩
    have key : ∀ s2 : WDState, getPh s2.phases i = WPhase.waiting →
        s2.restarting = false → s2.buf = true →
        (wstep s2 (WEv.receive i)).invocations = s2.invocations + 1 := by
      intro s2 hw hr hb
      simp only [wstep]
      rw [if_pos ⟨hw, hb⟩, if_neg (by rw [hr]; simp)]
    set s1 := wstep s (WEv.finish i false) with hs1
    show (wstep (wstep s1 WEv.deliver) (WEv.receive i)).invocations =
      s.invocations + 1
    by_cases hb : s1.buf = true
    · have hd : wstep s1 WEv.deliver = s1 := by
        simp only [wstep, hb, if_pos]
      rw [hd, key s1 h1ph h1res hb, h1inv]
    · have hd : wstep s1 WEv.deliver = { s1 with buf := true } := by
        simp only [wstep]
        rw [if_neg hb]
      rw [hd, key { s1 with buf := true } h1ph h1res rfl, h1inv]

/-- Witness for C6: one watcher, one delivered signal received — the
task is running; a nil callback result parks it in `done`, an error
result clears the flag and a further delivery plus receive retries. -/
theorem c6_witness :
    getPh (wrun (winit 1) [WEv.deliver, WEv.receive 0]).phases 0 =
      WPhase.running ∧
    (wrun (winit 1) [WEv.deliver, WEv.receive 0]).restarting = true ∧
    getPh (wstep (wrun (winit 1) [WEv.deliver, WEv.receive 0])
      (WEv.finish 0 true)).phases 0 = WPhase.done ∧
    (wstep (wrun (winit 1) [WEv.deliver, WEv.receive 0])
      (WEv.finish 0 false)).restarting = false ∧
    (wrun (wstep (wrun (winit 1) [WEv.deliver, WEv.receive 0])
      (WEv.finish 0 false)) [WEv.deliver, WEv.receive 0]).invocations =
      (wrun (winit 1) [WEv.deliver, WEv.receive 0]).invocations + 1 := by
  have hs : (wrun (winit 1) [WEv.deliver, WEv.receive 0]).phases =
      [WPhase.running] := by decide
  have huniq : ∀ j, getPh (wrun (winit 1)
      [WEv.deliver, WEv.receive 0]).phases j = WPhase.running → j = 0 := by
    intro j hj
    cases j with
    | zero => rfl
    | succ m =>
      rw [hs] at hj
      simp only [getPh, List.getD_cons_succ] at hj
      simp [List.getD] at hj
  have h := c6_continuation (wrun (winit 1) [WEv.deliver, WEv.receive 0]) 0
    (by decide) huniq (by decide)
  exact ⟨by decide, by decide, h.1.1, h.2.1, h.2.2.2⟩
